import Mathlib

/-!
Verification development for the bounded recursive web crawler implemented in
`urls_list.py` (functions `_is_file_url`, `_get_page_content`,
`_recursive_scrape`, `scrape_website_to_file`).

Modelling conventions:
* URLs are Python strings, modelled as Lean `String`; the Python `set`
  membership tests on URL strings become `List` membership with
  insert-if-absent addition (`addSet`), which keeps the deterministic
  insertion order and the no-duplicates property of a Python set.
* The standard-library collaborators `urllib.parse.urlparse`,
  `urllib.parse.urljoin` and the rendering `geturl` are external to the
  repository; they are abstracted as function fields of an `Env` record.
* The network and the HTML parser are abstracted by `Env.fetch`: for a URL and
  an attempt index it returns `none` (any exception: timeout, request error,
  unexpected error) or `some` raw page, holding the already-cleaned text and
  the raw `href` attribute values in document order.
* Side effects that the specification talks about (calls of
  `_get_page_content` with their retry parameters and the hard-coded HTTP
  timeout, and `time.sleep` calls) are recorded in an event log carried in the
  crawl state.
* `time.sleep` durations are modelled as rationals.
* The recursion of `_recursive_scrape` is embedded with an explicit fuel
  parameter; the fuel-zero branch is unreachable whenever the fuel exceeds
  `max_depth - current_depth` (proved below), which is the termination
  argument of the Python code.
-/

/-- URLs are Python strings. -/
abbrev Url := String

/-- Components of a URL as returned by Python's `urlparse`, restricted to the
fields the crawler reads: `scheme`, `netloc`, `path`, `fragment`. -/
structure UrlParts where
  scheme : String
  netloc : String
  path : String
  fragment : String
deriving DecidableEq

/-- Copy of a `UrlParts` value with the fragment erased; models
`parsed_full_url._replace(fragment="")` in `_get_page_content`. -/
def UrlParts.dropFragment (p : UrlParts) : UrlParts :=
  ⟨p.scheme, p.netloc, p.path, ""⟩

/-- Character-wise lowercasing; models Python's `str.lower()` on the ASCII
strings (URL paths) the crawler handles. -/
def strLower (s : String) : String :=
  ⟨s.data.map Char.toLower⟩

/-- Test that `s` ends with `t`; models Python's `str.endswith`. -/
def strEndsWith (s t : String) : Bool :=
  List.isSuffixOf t.data s.data

/-- Test that `s` starts with `t`; models Python's `str.startswith`. -/
def strStartsWith (s t : String) : Bool :=
  List.isPrefixOf t.data s.data

/-- The extension set `_FILE_EXTENSIONS` of `urls_list.py` (a Python set
literal; only membership is ever used, so a list is a faithful model). -/
def fileExtensions : List String :=
  [".pdf", ".doc", ".docx", ".xls", ".xlsx", ".ppt", ".pptx", ".zip", ".rar",
   ".tar", ".gz", ".bz2", ".7z", ".exe", ".dmg", ".apk",
   ".jpg", ".jpeg", ".png", ".gif", ".bmp", ".svg", ".webp",
   ".mp3", ".wav", ".ogg", ".flac",
   ".mp4", ".avi", ".mov", ".wmv", ".flv", ".webm",
   ".txt", ".csv", ".json", ".xml", ".yaml", ".md",
   ".css", ".js", ".php", ".asp", ".aspx", ".jsp", ".cfm", ".cgi"]

/-- Translation of `_is_file_url` (urls_list.py lines 27-37): the URL's path
is lowercased and tested against every extension of `_FILE_EXTENSIONS`.
The `urlparse` collaborator is passed in as `parse`. -/
def isFileUrl (parse : Url → UrlParts) (url : Url) : Bool :=
  fileExtensions.any (fun ext => strEndsWith (strLower (parse url).path) ext)

/-- Result of one successful HTTP GET plus BeautifulSoup processing: the
cleaned visible text and the `href` attribute values of the anchor tags in
document order.  This abstracts `requests.get` + HTML parsing, which are
external collaborators. -/
structure RawPage where
  text : String
  hrefs : List String
deriving DecidableEq

/-- The external collaborators of the crawler: `urljoin`, `urlparse`,
`geturl`, and the network/HTML-parsing outcome per URL and attempt index
(`none` models any exception raised during the attempt). -/
structure Env where
  urljoin : Url → String → Url
  parse : Url → UrlParts
  geturl : UrlParts → Url
  fetch : Url → Nat → Option RawPage

/-- The HTTP timeout hard-coded in `_get_page_content`:
`requests.get(url, headers=headers, timeout=10)` (line 63). -/
def requestTimeout : Nat := 10

/-- Python `set.add` on a set represented as a duplicate-free list in
insertion order. -/
def addSet (s : List Url) (u : Url) : List Url :=
  if u ∈ s then s else s ++ [u]

/-- The filter condition of the link-extraction loop of `_get_page_content`
(urls_list.py lines 82-84): the resolved URL's scheme is http or https, its
fragment is empty (`not parsed_full_url.fragment`), and the resolved URL does
not start with `mailto:`. -/
abbrev keepHref (env : Env) (pageUrl : Url) (href : String) : Prop :=
  ((env.parse (env.urljoin pageUrl href)).scheme = "http" ∨
      (env.parse (env.urljoin pageUrl href)).scheme = "https") ∧
    (env.parse (env.urljoin pageUrl href)).fragment = "" ∧
    strStartsWith (env.urljoin pageUrl href) "mailto:" = false

/-- The normalization applied to a kept link (urls_list.py line 85):
`parsed_full_url._replace(fragment="").geturl()`. -/
def normHref (env : Env) (pageUrl : Url) (href : String) : Url :=
  env.geturl (env.parse (env.urljoin pageUrl href)).dropFragment

/-- Translation of the link-extraction loop of `_get_page_content`
(urls_list.py lines 76-88): each `href` is resolved against the page URL
(`urljoin`), parsed, kept only under `keepHref`, normalized by `normHref`,
and collected with set semantics (`found_links = set()`), returned in
first-occurrence order (`list(found_links)`). -/
def extractLinks (env : Env) (pageUrl : Url) (hrefs : List String) : List Url :=
  hrefs.foldl (fun acc href =>
    if keepHref env pageUrl href then addSet acc (normHref env pageUrl href)
    else acc) []

/-- Translation of the retry loop `for attempt in range(max_retries)` of
`_get_page_content` (urls_list.py lines 60-99).  `remaining` counts the loop
iterations still to run and `attempt` is the current 0-based attempt index;
the loop is entered with `remaining = maxRetries`, `attempt = 0`.  On success
the cleaned text and the extracted links are returned; on an exception
(`env.fetch url attempt = none`) the code sleeps `delay` seconds when
`attempt < max_retries - 1` and retries.  The second component collects the
durations of those `time.sleep(delay)` calls in order. -/
def attemptLoop (env : Env) (url : Url) (maxRetries : Nat) (delay : ℚ) :
    Nat → Nat → Option (String × List Url) × List ℚ
  | 0, _ => (none, [])
  | remaining+1, attempt =>
    match env.fetch url attempt with
    | some page => (some (page.text, extractLinks env url page.hrefs), [])
    | none =>
      let rest := attemptLoop env url maxRetries delay remaining (attempt+1)
      (rest.1, (if attempt < maxRetries - 1 then [delay] else []) ++ rest.2)

/-- Translation of `_get_page_content(url, max_retries, delay)` (urls_list.py
lines 39-101): runs the retry loop from attempt 0; after exhausting all
attempts it returns `(None, None)`, modelled as `none`. -/
def getPageContent (env : Env) (url : Url) (maxRetries : Nat) (delay : ℚ) :
    Option (String × List Url) × List ℚ :=
  attemptLoop env url maxRetries delay maxRetries 0

/-- Observable side effects of the traversal, recorded for specification
purposes: a call of `_get_page_content` with the retry parameters it was
given and the HTTP timeout its attempts use, and a `time.sleep` call. -/
inductive Event where
  | fetch (url : Url) (maxRetries : Nat) (retryDelay : ℚ) (timeout : Nat)
  | sleep (duration : ℚ)
deriving DecidableEq

/-- The mutable module-level state of `urls_list.py`: `_visited_urls`,
`_all_discovered_urls` (Python sets, modelled as duplicate-free lists in
insertion order) and `_all_extracted_content` (a list of url/text records),
plus the event log described at `Event`. -/
structure CrawlState where
  visited : List Url
  discovered : List Url
  extractedContent : List (Url × String)
  log : List Event
deriving DecidableEq

/-- The cleared state installed by `scrape_website_to_file` before a run. -/
def initState : CrawlState := ⟨[], [], [], []⟩

/-- Effect of `_all_discovered_urls.add(u)`. -/
def addDiscovered (st : CrawlState) (u : Url) : CrawlState :=
  ⟨st.visited, addSet st.discovered u, st.extractedContent, st.log⟩

/-- Effect of `_visited_urls.add(u)`. -/
def addVisited (st : CrawlState) (u : Url) : CrawlState :=
  ⟨addSet st.visited u, st.discovered, st.extractedContent, st.log⟩

/-- Effect of `_all_extracted_content.append({'url': u, 'text': text})`. -/
def appendContent (st : CrawlState) (u : Url) (text : String) : CrawlState :=
  ⟨st.visited, st.discovered, st.extractedContent ++ [(u, text)], st.log⟩

/-- Appends events to the log component of the state. -/
def appendLog (st : CrawlState) (evs : List Event) : CrawlState :=
  ⟨st.visited, st.discovered, st.extractedContent, st.log ++ evs⟩

/-- Records one `_get_page_content` call (with the retry parameters passed to
it and the hard-coded HTTP timeout of its attempts) followed by the retry
sleeps it performed. -/
def logFetch (st : CrawlState) (u : Url) (maxRetries : Nat) (retryDelay : ℚ)
    (sleeps : List ℚ) : CrawlState :=
  appendLog st (Event.fetch u maxRetries retryDelay requestTimeout :: sleeps.map Event.sleep)

/-- Translation of the body of `_recursive_scrape` before the link loop
(urls_list.py lines 113-135): record the URL in `_all_discovered_urls`,
decide `should_scrape_content`, and in either fetching branch mark the URL
visited and call `_get_page_content(current_url)` — with Python's default
arguments `max_retries=3, delay=1`.  Returns the updated state and the
`found_links` value (`none` models Python `None`). -/
def visitStep (env : Env) (maxDepth limit : Nat) (url : Url) (depth : Nat)
    (st : CrawlState) : CrawlState × Option (List Url) :=
  let st1 := addDiscovered st url
  if url ∉ st1.visited ∧ depth ≤ maxDepth ∧ st1.extractedContent.length < limit then
    let fr := getPageContent env url 3 1
    let st2 := logFetch (addVisited st1 url) url 3 1 fr.2
    match fr.1 with
    | some (text, links) =>
      (if text = "" then st2 else appendContent st2 url text, some links)
    | none => (st2, none)
  else if url ∉ st1.visited then
    let fr := getPageContent env url 3 1
    let st2 := logFetch (addVisited st1 url) url 3 1 fr.2
    match fr.1 with
    | some (_, links) => (st2, some links)
    | none => (st2, none)
  else (st1, none)

/-- The recursion condition of the link loop (urls_list.py line 145):
`is_internal and not is_file and link not in _visited_urls and
current_depth < max_depth`. -/
abbrev linkGuard (env : Env) (baseNetloc : Url) (maxDepth depth : Nat)
    (st : CrawlState) (link : Url) : Prop :=
  (env.parse link).netloc = baseNetloc ∧ isFileUrl env.parse link = false ∧
    link ∉ st.visited ∧ depth < maxDepth

/-- Translation of the link loop of `_recursive_scrape` (urls_list.py lines
137-152): each link is added to `_all_discovered_urls`; when the recursion
condition holds, the quota test `len(_all_extracted_content) >=
scrape_content_limit` can `break` out of the loop, otherwise the engine
sleeps `politeness_delay` and recurses (the recursive call is the `rec`
argument). -/
def processLinks (env : Env) (baseNetloc : Url) (maxDepth limit : Nat) (delay : ℚ)
    (depth : Nat) (rec : Url → CrawlState → CrawlState) :
    List Url → CrawlState → CrawlState
  | [], st => st
  | link :: rest, st =>
    let st1 := addDiscovered st link
    if linkGuard env baseNetloc maxDepth depth st1 link then
      if limit ≤ st1.extractedContent.length then st1
      else processLinks env baseNetloc maxDepth limit delay depth rec rest
        (rec link (appendLog st1 [Event.sleep delay]))
    else processLinks env baseNetloc maxDepth limit delay depth rec rest st1

/-- Translation of `_recursive_scrape(base_url_netloc, current_url, max_depth,
current_depth, scrape_content_limit, politeness_delay)` (urls_list.py lines
103-152), with an explicit fuel bounding the call-stack depth.  `if
found_links:` skips the loop both for Python `None` and for the empty list;
`processLinks` of the empty list is the identity, so matching only on
`some links` is faithful. -/
def recursiveScrape (env : Env) (baseNetloc : Url) (maxDepth limit : Nat)
    (delay : ℚ) : Nat → Url → Nat → CrawlState → CrawlState
  | 0, _, _, st => st
  | fuel+1, url, depth, st =>
    let step := visitStep env maxDepth limit url depth st
    match step.2 with
    | some links =>
      processLinks env baseNetloc maxDepth limit delay depth
        (fun l s => recursiveScrape env baseNetloc maxDepth limit delay fuel l (depth+1) s)
        links step.1
    | none => step.1

/-- The traversal as invoked by `scrape_website_to_file` (urls_list.py line
191): fresh state, depth 0, base netloc taken from the start URL, fuel
`max_depth + 1` (enough for every reachable call, as proved below). -/
def crawlRun (env : Env) (startUrl : Url) (maxPages maxDepth : Nat)
    (politenessDelay : ℚ) : CrawlState :=
  recursiveScrape env (env.parse startUrl).netloc maxDepth maxPages politenessDelay
    (maxDepth + 1) startUrl 0 initState

/-- Boolean string comparison used to model Python's `sorted` on URL strings
(both orders are lexicographic on the character sequence). -/
def urlLe (a b : Url) : Bool := decide (a ≤ b)

/-- Result of `scrape_website_to_file`: the returned pair, plus the lines of
the written inventory file (`none` when the write raised `IOError`, which the
function only logs) and the event log of the run. -/
structure ScrapeResult where
  extractedContent : List (Url × String)
  sortedUrls : List Url
  fileLines : Option (List Url)
  log : List Event

/-- Translation of `scrape_website_to_file` (urls_list.py lines 154-208):
clears the state, runs the traversal, sorts the discovered set, writes one
URL per line (modelled as the list of lines; `writeOk = false` models an
`IOError`, which is caught and only logged), and returns the extracted
content together with the sorted URL list in either case. -/
def scrapeWebsiteToFile (env : Env) (startUrl : Url) (outputFilename : String)
    (maxPages maxDepth : Nat) (politenessDelay : ℚ) (writeOk : Bool) : ScrapeResult :=
  let final := crawlRun env startUrl maxPages maxDepth politenessDelay
  let sortedUrls := final.discovered.mergeSort urlLe
  ⟨final.extractedContent, sortedUrls,
    if writeOk then some sortedUrls else none, final.log⟩

/-- Concrete `urlparse` table for the URLs appearing in the concrete runs
below; the component values are exactly what Python's `urlparse` returns on
these strings. -/
def demoParse : Url → UrlParts := fun s =>
  if s = "https://a.test/" then ⟨"https", "a.test", "/", ""⟩
  else if s = "https://a.test/p1" then ⟨"https", "a.test", "/p1", ""⟩
  else if s = "https://a.test/f.pdf" then ⟨"https", "a.test", "/f.pdf", ""⟩
  else if s = "https://a.test/doc.pdf" then ⟨"https", "a.test", "/doc.pdf", ""⟩
  else if s = "https://ext.test/x" then ⟨"https", "ext.test", "/x", ""⟩
  else if s = "https://x/page#sec" then ⟨"https", "x", "/page", "sec"⟩
  else if s = "https://x/page" then ⟨"https", "x", "/page", ""⟩
  else ⟨"", "", "", ""⟩

/-- Concrete `geturl` matching `demoParse` on fragment-free parts. -/
def demoGeturl (p : UrlParts) : Url := p.scheme ++ "://" ++ p.netloc ++ p.path

/-- Concrete `urljoin`: every `href` in the concrete runs is already
absolute, and `urljoin` returns an absolute second argument unchanged. -/
def demoJoin (_ : Url) (href : String) : Url := href

/-- Builds a concrete environment from a fetch table. -/
def demoEnv (fetch : Url → Nat → Option RawPage) : Env :=
  ⟨demoJoin, demoParse, demoGeturl, fetch⟩

/-- Fetch table: the start page succeeds on the first attempt with two links
(an internal page and an external page); every other fetch raises. -/
def fetchHome2 : Url → Nat → Option RawPage := fun u a =>
  if u = "https://a.test/" ∧ a = 0 then
    some ⟨"home", ["https://a.test/p1", "https://ext.test/x"]⟩
  else none

/-- Fetch table: the start page succeeds on the first attempt with three
links (an internal page, an external page, an internal PDF file); every
other fetch raises. -/
def fetchHome3 : Url → Nat → Option RawPage := fun u a =>
  if u = "https://a.test/" ∧ a = 0 then
    some ⟨"home", ["https://a.test/p1", "https://ext.test/x", "https://a.test/f.pdf"]⟩
  else none

/-- Fetch table: a PDF start URL succeeding immediately with no links. -/
def fetchPdf : Url → Nat → Option RawPage := fun u a =>
  if u = "https://a.test/doc.pdf" ∧ a = 0 then some ⟨"pdf text", []⟩ else none

/-- Fetch table: the start page succeeds with a single fragment-carrying
href. -/
def fetchFrag : Url → Nat → Option RawPage := fun u a =>
  if u = "https://a.test/" ∧ a = 0 then some ⟨"home", ["https://x/page#sec"]⟩
  else none

/-- Fetch table: attempts 0 and 1 raise, attempt 2 succeeds. -/
def fetchThird : Url → Nat → Option RawPage := fun u a =>
  if u = "https://a.test/" ∧ a = 2 then some ⟨"late", []⟩ else none

/-- Fetch table: every attempt raises. -/
def fetchNever : Url → Nat → Option RawPage := fun _ _ => none

/-- The URLs whose content was extracted, in extraction order. -/
def extractedUrls (st : CrawlState) : List Url :=
  st.extractedContent.map Prod.fst

/-- The crawl-state invariant.  Its first three conjuncts are the invariant
stated by the specification (`visited ⊆ discovered`, the extracted-content
quota, no URL extracted twice); the remaining conjuncts (extracted URLs are
visited, both sets are duplicate-free) are the auxiliary facts that make it
inductive. -/
abbrev CrawlInv (limit : Nat) (st : CrawlState) : Prop :=
  (∀ u ∈ st.visited, u ∈ st.discovered) ∧
  st.extractedContent.length ≤ limit ∧
  (extractedUrls st).Nodup ∧
  (∀ u ∈ extractedUrls st, u ∈ st.visited) ∧
  st.discovered.Nodup ∧
  st.visited.Nodup

/-- One crawl state extends another: the visited and discovered sets only
grow, and the extracted-content list and the event log are only appended
to. -/
def Extends (st st' : CrawlState) : Prop :=
  (∀ u ∈ st.visited, u ∈ st'.visited) ∧
  (∀ u ∈ st.discovered, u ∈ st'.discovered) ∧
  (∃ t, st'.extractedContent = st.extractedContent ++ t) ∧
  (∃ t, st'.log = st.log ++ t)

/-- Every fetch event in the log satisfies `P` on its URL and carries the
built-in parameters `max_retries=3, delay=1, timeout=10` that
`_recursive_scrape` and `_get_page_content` hard-code. -/
def GoodLog (P : Url → Prop) (st : CrawlState) : Prop :=
  ∀ u mr rd tmo, Event.fetch u mr rd tmo ∈ st.log →
    P u ∧ mr = 3 ∧ rd = 1 ∧ tmo = requestTimeout

/-- URLs of the fetch events of a log, in order. -/
def fetchUrls (l : List Event) : List Url :=
  l.filterMap (fun e => match e with
    | Event.fetch u _ _ _ => some u
    | Event.sleep _ => none)

/-- Each URL is fetched at most once, and only after being marked visited:
the fetched-URL list is duplicate-free and contained in `visited`. -/
def FetchOnce (st : CrawlState) : Prop :=
  (fetchUrls st.log).Nodup ∧ ∀ u ∈ fetchUrls st.log, u ∈ st.visited

/-- Membership in a set after `addSet`. -/
theorem mem_addSet {s : List Url} {u x : Url} : x ∈ addSet s u ↔ x ∈ s ∨ x = u := by
  by_cases h : u ∈ s
  · simp only [addSet, if_pos h]
    exact ⟨Or.inl, fun hx => hx.elim id (fun e => e ▸ h)⟩
  · simp [addSet, if_neg h]

/-- The added element is a member. -/
theorem mem_addSet_self {s : List Url} {u : Url} : u ∈ addSet s u :=
  mem_addSet.2 (Or.inr rfl)

/-- The old elements remain members. -/
theorem subset_addSet {s : List Url} {u x : Url} (h : x ∈ s) : x ∈ addSet s u :=
  mem_addSet.2 (Or.inl h)

/-- `addSet` keeps the no-duplicates property of the set representation. -/
theorem nodup_addSet {s : List Url} {u : Url} (h : s.Nodup) : (addSet s u).Nodup := by
  by_cases hu : u ∈ s
  · simpa [addSet, if_pos hu] using h
  · simp [addSet, if_neg hu, List.nodup_append, h, hu]

/-- `Extends` is reflexive. -/
theorem Extends.refl (st : CrawlState) : Extends st st :=
  ⟨fun _ h => h, fun _ h => h, ⟨[], (List.append_nil _).symm⟩,
    ⟨[], (List.append_nil _).symm⟩⟩

/-- `Extends` is transitive. -/
theorem Extends.trans {a b c : CrawlState} (h1 : Extends a b) (h2 : Extends b c) :
    Extends a c := by
  obtain ⟨v1, d1, ⟨t1, e1⟩, ⟨l1, g1⟩⟩ := h1
  obtain ⟨v2, d2, ⟨t2, e2⟩, ⟨l2, g2⟩⟩ := h2
  exact ⟨fun u h => v2 u (v1 u h), fun u h => d2 u (d1 u h),
    ⟨t1 ++ t2, by rw [e2, e1, List.append_assoc]⟩,
    ⟨l1 ++ l2, by rw [g2, g1, List.append_assoc]⟩⟩

/-- Recording a discovered URL only grows the state. -/
theorem extends_addDiscovered (st : CrawlState) (u : Url) :
    Extends st (addDiscovered st u) :=
  ⟨fun _ h => h, fun _ h => subset_addSet h, ⟨[], (List.append_nil _).symm⟩,
    ⟨[], (List.append_nil _).symm⟩⟩

/-- Marking a URL visited only grows the state. -/
theorem extends_addVisited (st : CrawlState) (u : Url) :
    Extends st (addVisited st u) :=
  ⟨fun _ h => subset_addSet h, fun _ h => h, ⟨[], (List.append_nil _).symm⟩,
    ⟨[], (List.append_nil _).symm⟩⟩

/-- Appending extracted content only grows the state. -/
theorem extends_appendContent (st : CrawlState) (u : Url) (text : String) :
    Extends st (appendContent st u text) :=
  ⟨fun _ h => h, fun _ h => h, ⟨[(u, text)], rfl⟩, ⟨[], (List.append_nil _).symm⟩⟩

/-- Logging events only grows the state. -/
theorem extends_appendLog (st : CrawlState) (evs : List Event) :
    Extends st (appendLog st evs) :=
  ⟨fun _ h => h, fun _ h => h, ⟨[], (List.append_nil _).symm⟩, ⟨evs, rfl⟩⟩

/-- Logging a fetch only grows the state. -/
theorem extends_logFetch (st : CrawlState) (u : Url) (mr : Nat) (rd : ℚ)
    (sleeps : List ℚ) : Extends st (logFetch st u mr rd sleeps) :=
  extends_appendLog st _

/-- One `visitStep` only grows the state. -/
theorem extends_visitStep (env : Env) (maxDepth limit : Nat) (url : Url)
    (depth : Nat) (st : CrawlState) :
    Extends st (visitStep env maxDepth limit url depth st).1 := by
  simp only [visitStep]
  split
  · split
    · split
      · exact (extends_addDiscovered st url).trans
          ((extends_addVisited _ url).trans (extends_logFetch _ url 3 1 _))
      · exact (extends_addDiscovered st url).trans
          (((extends_addVisited _ url).trans (extends_logFetch _ url 3 1 _)).trans
            (extends_appendContent _ url _))
    · exact (extends_addDiscovered st url).trans
        ((extends_addVisited _ url).trans (extends_logFetch _ url 3 1 _))
  · split
    · split
      · exact (extends_addDiscovered st url).trans
          ((extends_addVisited _ url).trans (extends_logFetch _ url 3 1 _))
      · exact (extends_addDiscovered st url).trans
          ((extends_addVisited _ url).trans (extends_logFetch _ url 3 1 _))
    · exact extends_addDiscovered st url

/-- The link loop only grows the state, provided the recursive call does. -/
theorem extends_processLinks (env : Env) (base : Url) (maxDepth limit : Nat)
    (delay : ℚ) (depth : Nat) (rec : Url → CrawlState → CrawlState)
    (hrec : ∀ l s, Extends s (rec l s)) :
    ∀ links st, Extends st (processLinks env base maxDepth limit delay depth rec links st) := by
  intro links
  induction links with
  | nil => exact fun st => Extends.refl st
  | cons link rest ih =>
    intro st
    simp only [processLinks]
    split
    · split
      · exact extends_addDiscovered st link
      · exact (extends_addDiscovered st link).trans
          ((extends_appendLog _ _).trans ((hrec link _).trans (ih _)))
    · exact (extends_addDiscovered st link).trans (ih _)

/-- The recursive traversal only grows the state. -/
theorem extends_recursiveScrape (env : Env) (base : Url) (maxDepth limit : Nat)
    (delay : ℚ) :
    ∀ fuel url depth st,
      Extends st (recursiveScrape env base maxDepth limit delay fuel url depth st) := by
  intro fuel
  induction fuel with
  | zero => exact fun url depth st => Extends.refl st
  | succ f ih =>
    intro url depth st
    simp only [recursiveScrape]
    split
    · exact (extends_visitStep env maxDepth limit url depth st).trans
        (extends_processLinks env base maxDepth limit delay depth _
          (fun l s => ih l (depth+1) s) _ _)
    · exact extends_visitStep env maxDepth limit url depth st

/-- The state reached after `visitStep` extends the state of every later
point of the surrounding `recursiveScrape` call. -/
theorem extends_recursiveScrape_step (env : Env) (base : Url)
    (maxDepth limit : Nat) (delay : ℚ) (fuel : Nat) (url : Url) (depth : Nat)
    (st : CrawlState) :
    Extends (visitStep env maxDepth limit url depth st).1
      (recursiveScrape env base maxDepth limit delay (fuel+1) url depth st) := by
  simp only [recursiveScrape]
  split
  · exact extends_processLinks env base maxDepth limit delay depth _
      (fun l s => extends_recursiveScrape env base maxDepth limit delay fuel l (depth+1) s) _ _
  · exact Extends.refl _

/-- The cleared initial state satisfies the invariant. -/
theorem inv_initState (limit : Nat) : CrawlInv limit initState := by
  refine ⟨?_, ?_, ?_, ?_, ?_, ?_⟩ <;> simp [initState, extractedUrls]

/-- Recording a discovered URL preserves the invariant. -/
theorem inv_addDiscovered {limit : Nat} {st : CrawlState} (h : CrawlInv limit st)
    (u : Url) : CrawlInv limit (addDiscovered st u) := by
  obtain ⟨h1, h2, h3, h4, h5, h6⟩ := h
  exact ⟨fun x hx => subset_addSet (h1 x hx), h2, h3, h4, nodup_addSet h5, h6⟩

/-- Logging events preserves the invariant. -/
theorem inv_appendLog {limit : Nat} {st : CrawlState} (h : CrawlInv limit st)
    (evs : List Event) : CrawlInv limit (appendLog st evs) := h

/-- Marking an already-discovered URL visited preserves the invariant. -/
theorem inv_addVisited {limit : Nat} {st : CrawlState} (h : CrawlInv limit st)
    {u : Url} (hu : u ∈ st.discovered) : CrawlInv limit (addVisited st u) := by
  obtain ⟨h1, h2, h3, h4, h5, h6⟩ := h
  refine ⟨?_, h2, h3, ?_, h5, nodup_addSet h6⟩
  · intro x hx
    rcases mem_addSet.1 hx with hx | rfl
    · exact h1 x hx
    · exact hu
  · exact fun x hx => subset_addSet (h4 x hx)

/-- One `visitStep` preserves the invariant. -/
theorem inv_visitStep (env : Env) (maxDepth limit : Nat) (url : Url)
    (depth : Nat) {st : CrawlState} (h : CrawlInv limit st) :
    CrawlInv limit (visitStep env maxDepth limit url depth st).1 := by
  simp only [visitStep]
  split
  · rename_i hc
    have hd : CrawlInv limit (addDiscovered st url) := inv_addDiscovered h url
    have hv : CrawlInv limit (addVisited (addDiscovered st url) url) :=
      inv_addVisited hd mem_addSet_self
    have hlf : CrawlInv limit (logFetch (addVisited (addDiscovered st url) url) url 3 1
        (getPageContent env url 3 1).2) := inv_appendLog hv _
    split
    · split
      · exact hlf
      · -- content is appended: the quota and uniqueness conjuncts move
        obtain ⟨h1, h2, h3, h4, h5, h6⟩ := hlf
        obtain ⟨hc1, hc2, hc3⟩ := hc
        have hnot : url ∉ extractedUrls st := fun hmem => hc1 (h.2.2.2.1 url hmem)
        have hlen : st.extractedContent.length < limit := hc3
        refine ⟨h1, ?_, ?_, ?_, h5, h6⟩
        · simp only [appendContent, List.length_append, List.length_singleton]
          show st.extractedContent.length + 1 ≤ limit
          omega
        · simp only [appendContent, extractedUrls, List.map_append, List.map_cons,
            List.map_nil]
          show (List.map Prod.fst st.extractedContent ++ [url]).Nodup
          refine List.Nodup.append h3 (List.nodup_singleton url) ?_
          intro a ha hb
          rw [List.mem_singleton] at hb
          subst hb
          exact hnot ha
        · intro x hx
          simp only [appendContent, extractedUrls, List.map_append, List.map_cons,
            List.map_nil, List.mem_append, List.mem_singleton] at hx
          rcases hx with hx | rfl
          · exact h4 x hx
          · exact mem_addSet_self
    · exact hlf
  · split
    · have hd : CrawlInv limit (addDiscovered st url) := inv_addDiscovered h url
      have hv : CrawlInv limit (addVisited (addDiscovered st url) url) :=
        inv_addVisited hd mem_addSet_self
      have hlf : CrawlInv limit (logFetch (addVisited (addDiscovered st url) url) url 3 1
          (getPageContent env url 3 1).2) := inv_appendLog hv _
      split
      · exact hlf
      · exact hlf
    · exact inv_addDiscovered h url

/-- The link loop preserves the invariant, provided the recursive call
does. -/
theorem inv_processLinks (env : Env) (base : Url) (maxDepth limit : Nat)
    (delay : ℚ) (depth : Nat) (rec : Url → CrawlState → CrawlState)
    (hrec : ∀ l s, CrawlInv limit s → CrawlInv limit (rec l s)) :
    ∀ links st, CrawlInv limit st →
      CrawlInv limit (processLinks env base maxDepth limit delay depth rec links st) := by
  intro links
  induction links with
  | nil => exact fun st h => h
  | cons link rest ih =>
    intro st h
    simp only [processLinks]
    split
    · split
      · exact inv_addDiscovered h link
      · exact ih _ (hrec link _ (inv_appendLog (inv_addDiscovered h link) _))
    · exact ih _ (inv_addDiscovered h link)

/-- The recursive traversal preserves the invariant. -/
theorem inv_recursiveScrape (env : Env) (base : Url) (maxDepth limit : Nat)
    (delay : ℚ) :
    ∀ fuel url depth st, CrawlInv limit st →
      CrawlInv limit (recursiveScrape env base maxDepth limit delay fuel url depth st) := by
  intro fuel
  induction fuel with
  | zero => exact fun url depth st h => h
  | succ f ih =>
    intro url depth st h
    simp only [recursiveScrape]
    split
    · exact inv_processLinks env base maxDepth limit delay depth _
        (fun l s hs => ih l (depth+1) s hs) _ _
        (inv_visitStep env maxDepth limit url depth h)
    · exact inv_visitStep env maxDepth limit url depth h


/-- `GoodLog` only looks at the log. -/
theorem goodLog_of_log_eq {P : Url → Prop} {st st' : CrawlState}
    (e : st'.log = st.log) (h : GoodLog P st) : GoodLog P st' :=
  fun u mr rd tmo hm => h u mr rd tmo (e ▸ hm)

/-- Logging a fetch of a URL satisfying `P` preserves `GoodLog`. -/
theorem goodLog_logFetch {P : Url → Prop} {st : CrawlState} (h : GoodLog P st)
    {url : Url} (hP : P url) (sleeps : List ℚ) :
    GoodLog P (logFetch st url 3 1 sleeps) := by
  intro u mr rd tmo hmem
  simp only [logFetch, appendLog, List.mem_append, List.mem_cons, List.mem_map,
    Event.fetch.injEq] at hmem
  rcases hmem with hmem | ⟨rfl, rfl, rfl, rfl⟩ | ⟨q, _, hq⟩
  · exact h u mr rd tmo hmem
  · exact ⟨hP, rfl, rfl, rfl⟩
  · exact absurd hq (by simp)

/-- Logging politeness sleeps preserves `GoodLog`. -/
theorem goodLog_appendSleep {P : Url → Prop} {st : CrawlState} (h : GoodLog P st)
    (q : ℚ) : GoodLog P (appendLog st [Event.sleep q]) := by
  intro u mr rd tmo hmem
  simp only [appendLog, List.mem_append, List.mem_cons, List.not_mem_nil,
    or_false] at hmem
  rcases hmem with hmem | hmem
  · exact h u mr rd tmo hmem
  · exact absurd hmem (by simp)

/-- One `visitStep` preserves `GoodLog` when the visited URL satisfies `P`. -/
theorem goodLog_visitStep (env : Env) (maxDepth limit : Nat) (url : Url)
    (depth : Nat) {P : Url → Prop} {st : CrawlState} (hP : P url)
    (h : GoodLog P st) :
    GoodLog P (visitStep env maxDepth limit url depth st).1 := by
  have hbase : ∀ sleeps : List ℚ, GoodLog P
      (logFetch (addVisited (addDiscovered st url) url) url 3 1 sleeps) :=
    fun sleeps => goodLog_logFetch (goodLog_of_log_eq rfl h) hP sleeps
  simp only [visitStep]
  split
  · split
    · split
      · exact goodLog_of_log_eq rfl (hbase _)
      · exact goodLog_of_log_eq rfl (hbase _)
    · exact goodLog_of_log_eq rfl (hbase _)
  · split
    · split
      · exact goodLog_of_log_eq rfl (hbase _)
      · exact goodLog_of_log_eq rfl (hbase _)
    · exact goodLog_of_log_eq rfl h

/-- The link loop preserves `GoodLog`: it recurses only into links that pass
the internal/non-file guard, and logs only sleeps itself. -/
theorem goodLog_processLinks (env : Env) (base : Url) (maxDepth limit : Nat)
    (delay : ℚ) (depth : Nat) (rec : Url → CrawlState → CrawlState)
    {P : Url → Prop}
    (hlink : ∀ l, (env.parse l).netloc = base → isFileUrl env.parse l = false → P l)
    (hrec : ∀ l s, P l → GoodLog P s → GoodLog P (rec l s)) :
    ∀ links st, GoodLog P st →
      GoodLog P (processLinks env base maxDepth limit delay depth rec links st) := by
  intro links
  induction links with
  | nil => exact fun st h => h
  | cons link rest ih =>
    intro st h
    simp only [processLinks]
    split
    · rename_i hg
      split
      · exact goodLog_of_log_eq rfl h
      · exact ih _ (hrec link _ (hlink link hg.1 hg.2.1)
          (goodLog_appendSleep (goodLog_of_log_eq rfl h) delay))
    · exact ih _ (goodLog_of_log_eq rfl h)

/-- The recursive traversal preserves `GoodLog` when the current URL
satisfies `P` and `P` holds of every URL passing the internal/non-file
guard. -/
theorem goodLog_recursiveScrape (env : Env) (base : Url) (maxDepth limit : Nat)
    (delay : ℚ) {P : Url → Prop}
    (hlink : ∀ l, (env.parse l).netloc = base → isFileUrl env.parse l = false → P l) :
    ∀ fuel url depth st, P url → GoodLog P st →
      GoodLog P (recursiveScrape env base maxDepth limit delay fuel url depth st) := by
  intro fuel
  induction fuel with
  | zero => exact fun url depth st _ h => h
  | succ f ih =>
    intro url depth st hP h
    simp only [recursiveScrape]
    split
    · exact goodLog_processLinks env base maxDepth limit delay depth _ hlink
        (fun l s hl hs => ih l (depth+1) s hl hs) _ _
        (goodLog_visitStep env maxDepth limit url depth hP h)
    · exact goodLog_visitStep env maxDepth limit url depth hP h

/-- `fetchUrls` distributes over append. -/
theorem fetchUrls_append (l1 l2 : List Event) :
    fetchUrls (l1 ++ l2) = fetchUrls l1 ++ fetchUrls l2 :=
  List.filterMap_append l1 l2 _

/-- A fetch event contributes its URL. -/
theorem fetchUrls_fetch_cons (u : Url) (mr : Nat) (rd : ℚ) (tmo : Nat)
    (l : List Event) :
    fetchUrls (Event.fetch u mr rd tmo :: l) = u :: fetchUrls l := rfl

/-- Sleep events contribute nothing. -/
theorem fetchUrls_sleep_map (sleeps : List ℚ) :
    fetchUrls (List.map Event.sleep sleeps) = [] := by
  induction sleeps with
  | nil => rfl
  | cons q rest ih => simpa [fetchUrls, List.filterMap_cons] using ih

/-- `FetchOnce` only looks at the log and the visited set. -/
theorem fetchOnce_of_eq {st st' : CrawlState} (el : st'.log = st.log)
    (ev : st'.visited = st.visited) (h : FetchOnce st) : FetchOnce st' := by
  unfold FetchOnce
  rw [el, ev]
  exact h

/-- Fetching an unvisited URL (and marking it visited) preserves
`FetchOnce`. -/
theorem fetchOnce_after_fetch {st : CrawlState} {u : Url} (h : FetchOnce st)
    (hu : u ∉ st.visited) (mr : Nat) (rd : ℚ) (sleeps : List ℚ) :
    FetchOnce (logFetch (addVisited (addDiscovered st u) u) u mr rd sleeps) := by
  obtain ⟨h1, h2⟩ := h
  constructor
  · show (fetchUrls (st.log ++
      (Event.fetch u mr rd requestTimeout :: List.map Event.sleep sleeps))).Nodup
    rw [fetchUrls_append, fetchUrls_fetch_cons, fetchUrls_sleep_map]
    refine List.Nodup.append h1 ?_ ?_
    · exact List.nodup_cons.2 ⟨List.not_mem_nil u, List.nodup_nil⟩
    · intro a ha hb
      rw [List.mem_cons] at hb
      rcases hb with rfl | hb
      · exact hu (h2 a ha)
      · exact absurd hb (List.not_mem_nil a)
  · intro x hx
    rw [show (logFetch (addVisited (addDiscovered st u) u) u mr rd sleeps).log =
        st.log ++ (Event.fetch u mr rd requestTimeout :: List.map Event.sleep sleeps)
      from rfl, fetchUrls_append, fetchUrls_fetch_cons, fetchUrls_sleep_map] at hx
    rcases List.mem_append.1 hx with hx | hx
    · exact subset_addSet (h2 x hx)
    · rw [List.mem_cons] at hx
      rcases hx with rfl | hx
      · exact mem_addSet_self
      · exact absurd hx (List.not_mem_nil x)

/-- One `visitStep` preserves `FetchOnce`. -/
theorem fetchOnce_visitStep (env : Env) (maxDepth limit : Nat) (url : Url)
    (depth : Nat) {st : CrawlState} (h : FetchOnce st) :
    FetchOnce (visitStep env maxDepth limit url depth st).1 := by
  simp only [visitStep]
  split
  · rename_i hc
    have hu : url ∉ st.visited := hc.1
    split
    · split
      · exact fetchOnce_of_eq rfl rfl (fetchOnce_after_fetch h hu 3 1 _)
      · exact fetchOnce_of_eq rfl rfl (fetchOnce_after_fetch h hu 3 1 _)
    · exact fetchOnce_of_eq rfl rfl (fetchOnce_after_fetch h hu 3 1 _)
  · split
    · rename_i hu
      split
      · exact fetchOnce_of_eq rfl rfl (fetchOnce_after_fetch h hu 3 1 _)
      · exact fetchOnce_of_eq rfl rfl (fetchOnce_after_fetch h hu 3 1 _)
    · exact fetchOnce_of_eq rfl rfl h

/-- The link loop preserves `FetchOnce`, provided the recursive call does. -/
theorem fetchOnce_processLinks (env : Env) (base : Url) (maxDepth limit : Nat)
    (delay : ℚ) (depth : Nat) (rec : Url → CrawlState → CrawlState)
    (hrec : ∀ l s, FetchOnce s → FetchOnce (rec l s)) :
    ∀ links st, FetchOnce st →
      FetchOnce (processLinks env base maxDepth limit delay depth rec links st) := by
  intro links
  induction links with
  | nil => exact fun st h => h
  | cons link rest ih =>
    intro st h
    have hsleep : ∀ q : ℚ,
        FetchOnce (appendLog (addDiscovered st link) [Event.sleep q]) := by
      intro q
      obtain ⟨h1, h2⟩ := h
      constructor
      · show (fetchUrls (st.log ++ [Event.sleep q])).Nodup
        rw [fetchUrls_append, show fetchUrls [Event.sleep q] = [] from rfl,
          List.append_nil]
        exact h1
      · intro x hx
        rw [show (appendLog (addDiscovered st link) [Event.sleep q]).log =
            st.log ++ [Event.sleep q] from rfl, fetchUrls_append,
          show fetchUrls [Event.sleep q] = [] from rfl, List.append_nil] at hx
        exact h2 x hx
    simp only [processLinks]
    split
    · split
      · exact fetchOnce_of_eq rfl rfl h
      · exact ih _ (hrec link _ (hsleep delay))
    · exact ih _ (fetchOnce_of_eq rfl rfl h)

/-- The recursive traversal preserves `FetchOnce`. -/
theorem fetchOnce_recursiveScrape (env : Env) (base : Url) (maxDepth limit : Nat)
    (delay : ℚ) :
    ∀ fuel url depth st, FetchOnce st →
      FetchOnce (recursiveScrape env base maxDepth limit delay fuel url depth st) := by
  intro fuel
  induction fuel with
  | zero => exact fun url depth st h => h
  | succ f ih =>
    intro url depth st h
    simp only [recursiveScrape]
    split
    · exact fetchOnce_processLinks env base maxDepth limit delay depth _
        (fun l s hs => ih l (depth+1) s hs) _ _
        (fetchOnce_visitStep env maxDepth limit url depth h)
    · exact fetchOnce_visitStep env maxDepth limit url depth h

/-- The link loop calls its recursive argument only when
`current_depth < max_depth`, so two recursive arguments that agree under that
condition give the same loop result. -/
theorem processLinks_congr (env : Env) (base : Url) (maxDepth limit : Nat)
    (delay : ℚ) (depth : Nat) (rec1 rec2 : Url → CrawlState → CrawlState)
    (h : depth < maxDepth → ∀ l s, rec1 l s = rec2 l s) :
    ∀ links st, processLinks env base maxDepth limit delay depth rec1 links st =
      processLinks env base maxDepth limit delay depth rec2 links st := by
  intro links
  induction links with
  | nil => exact fun st => rfl
  | cons link rest ih =>
    intro st
    simp only [processLinks]
    split
    · rename_i hg
      split
      · rfl
      · rw [h hg.2.2.2 link _, ih]
    · exact ih _

/-- Termination of `_recursive_scrape`: the result does not depend on the
fuel once the fuel exceeds `max_depth - current_depth`, because each
recursive descent requires `current_depth < max_depth` and increases the
depth by one. -/
theorem recursiveScrape_stab (env : Env) (base : Url) (maxDepth limit : Nat)
    (delay : ℚ) :
    ∀ f g u d st, maxDepth - d < f → maxDepth - d < g →
      recursiveScrape env base maxDepth limit delay f u d st =
      recursiveScrape env base maxDepth limit delay g u d st := by
  intro f
  induction f with
  | zero => exact fun g u d st hf _ => absurd hf (Nat.not_lt_zero _)
  | succ f ih =>
    intro g u d st hf hg
    cases g with
    | zero => exact absurd hg (Nat.not_lt_zero _)
    | succ g =>
      simp only [recursiveScrape]
      cases hvs : (visitStep env maxDepth limit u d st).2 with
      | none => rfl
      | some links =>
        exact processLinks_congr env base maxDepth limit delay d _ _
          (fun hd l s => ih g l (d+1) s (by omega) (by omega)) links _

/-- If every attempt raises, the retry loop returns the failure outcome. -/
theorem attemptLoop_fail_all (env : Env) (url : Url) (mr : Nat) (delay : ℚ) :
    ∀ remaining attempt, (∀ i, env.fetch url i = none) →
      (attemptLoop env url mr delay remaining attempt).1 = none := by
  intro remaining
  induction remaining with
  | zero => exact fun attempt _ => rfl
  | succ r ih =>
    intro attempt h
    simp only [attemptLoop, h attempt]
    exact ih (attempt+1) h

/-- If attempts `attempt, …, k-1` raise and attempt `k` succeeds (with
`k ≤ max_retries - 1`), the retry loop started at `attempt` returns the
successful result after sleeping `delay` exactly `k - attempt` times. -/
theorem attemptLoop_success (env : Env) (url : Url) (mr : Nat) (delay : ℚ)
    (page : RawPage) :
    ∀ remaining attempt k, (∀ i, attempt ≤ i → i < k → env.fetch url i = none) →
      env.fetch url k = some page → attempt ≤ k → k < attempt + remaining →
      k + 1 ≤ mr →
      attemptLoop env url mr delay remaining attempt =
        (some (page.text, extractLinks env url page.hrefs),
          List.replicate (k - attempt) delay) := by
  intro remaining
  induction remaining with
  | zero =>
    intro attempt k _ _ hak hk _
    exact absurd hk (by omega)
  | succ r ih =>
    intro attempt k hfail hsucc hak hk hkm
    by_cases hek : attempt = k
    · subst hek
      simp only [attemptLoop, hsucc]
      simp
    · have hlt : attempt < k := lt_of_le_of_ne hak hek
      have h0 : env.fetch url attempt = none := hfail attempt le_rfl hlt
      simp only [attemptLoop, h0]
      rw [ih (attempt+1) k (fun i h1 h2 => hfail i (by omega) h2) hsucc
        (by omega) (by omega) hkm]
      have hsl : attempt < mr - 1 := by omega
      rw [if_pos hsl]
      have hrw : k - attempt = (k - (attempt+1)) + 1 := by omega
      rw [hrw, List.replicate_succ]
      rfl

/-- `_get_page_content` when the first `max_retries - 1` attempts raise and
the last succeeds: the successful result is returned after exactly
`max_retries - 1` constant-delay sleeps. -/
theorem getPageContent_eventually (env : Env) (url : Url) (mr : Nat) (delay : ℚ)
    (page : RawPage) (h1 : 1 ≤ mr)
    (hfail : ∀ i, i < mr - 1 → env.fetch url i = none)
    (hsucc : env.fetch url (mr - 1) = some page) :
    getPageContent env url mr delay =
      (some (page.text, extractLinks env url page.hrefs),
        List.replicate (mr - 1) delay) := by
  unfold getPageContent
  have h := attemptLoop_success env url mr delay page mr 0 (mr - 1)
    (fun i _ h2 => hfail i h2) hsucc (Nat.zero_le _) (by omega) (by omega)
  simpa using h

/-- `_get_page_content` when the very first attempt succeeds. -/
theorem getPageContent_first_success (env : Env) (url : Url) (mr : Nat)
    (delay : ℚ) (page : RawPage) (h1 : 1 ≤ mr)
    (hsucc : env.fetch url 0 = some page) :
    getPageContent env url mr delay =
      (some (page.text, extractLinks env url page.hrefs), []) := by
  unfold getPageContent
  have h := attemptLoop_success env url mr delay page mr 0 0
    (fun i _ h2 => absurd h2 (by omega)) hsucc le_rfl (by omega) (by omega)
  simpa using h

/-- `_get_page_content` when every attempt raises: the failure outcome
`(None, None)` is returned, no exception escapes. -/
theorem getPageContent_fail (env : Env) (url : Url) (mr : Nat) (delay : ℚ)
    (h : ∀ i, env.fetch url i = none) :
    (getPageContent env url mr delay).1 = none :=
  attemptLoop_fail_all env url mr delay mr 0 h

/-- Membership in the link-extraction fold. -/
theorem mem_extractLinks_foldl (env : Env) (pageUrl : Url) :
    ∀ (hrefs : List String) (acc : List Url) (u : Url),
      (u ∈ List.foldl (fun acc href =>
        if keepHref env pageUrl href then addSet acc (normHref env pageUrl href)
        else acc) acc hrefs) ↔
      u ∈ acc ∨ ∃ href ∈ hrefs, keepHref env pageUrl href ∧
        u = normHref env pageUrl href := by
  intro hrefs
  induction hrefs with
  | nil => simp
  | cons h t ih =>
    intro acc u
    simp only [List.foldl_cons]
    rw [ih]
    by_cases hk : keepHref env pageUrl h
    · simp only [if_pos hk, mem_addSet, List.mem_cons]
      constructor
      · rintro (( hu | rfl) | ⟨href, hh, hkeep, rfl⟩)
        · exact Or.inl hu
        · exact Or.inr ⟨h, Or.inl rfl, hk, rfl⟩
        · exact Or.inr ⟨href, Or.inr hh, hkeep, rfl⟩
      · rintro (hu | ⟨href, hh | hh, hkeep, rfl⟩)
        · exact Or.inl (Or.inl hu)
        · exact Or.inl (Or.inr (by rw [hh]))
        · exact Or.inr ⟨href, hh, hkeep, rfl⟩
    · simp only [if_neg hk, List.mem_cons]
      constructor
      · rintro (hu | ⟨href, hh, hkeep, rfl⟩)
        · exact Or.inl hu
        · exact Or.inr ⟨href, Or.inr hh, hkeep, rfl⟩
      · rintro (hu | ⟨href, hh | hh, hkeep, rfl⟩)
        · exact Or.inl hu
        · exact absurd (hh ▸ hkeep) hk
        · exact Or.inr ⟨href, hh, hkeep, rfl⟩

/-- Characterization of the links returned by `_get_page_content`: a URL is
returned exactly when some `href` of the page resolves to an absolute http or
https URL with an empty fragment, is not a mailto link, and renders to that
URL with the (empty) fragment erased. -/
theorem mem_extractLinks (env : Env) (pageUrl : Url) (hrefs : List String)
    (u : Url) :
    u ∈ extractLinks env pageUrl hrefs ↔
      ∃ href ∈ hrefs, keepHref env pageUrl href ∧
        u = normHref env pageUrl href := by
  unfold extractLinks
  rw [mem_extractLinks_foldl]
  simp

/-- Characterization of one `visitStep` when `should_scrape_content` holds
(the URL is unvisited, the depth is within bound, and the quota is not
reached): the URL is marked visited, a fetch with the built-in parameters is
logged, a content entry is appended exactly when the fetch succeeds with
non-empty text, and the returned links are handed to the link loop whenever
the fetch succeeds, empty text or not. -/
theorem visitStep_scrape (env : Env) (maxDepth limit : Nat) (url : Url)
    (depth : Nat) (st : CrawlState)
    (hc : url ∉ st.visited ∧ depth ≤ maxDepth ∧ st.extractedContent.length < limit) :
    (visitStep env maxDepth limit url depth st).1.visited = st.visited ++ [url] ∧
    Event.fetch url 3 1 requestTimeout ∈ (visitStep env maxDepth limit url depth st).1.log ∧
    (visitStep env maxDepth limit url depth st).1.extractedContent =
      st.extractedContent ++
        (match (getPageContent env url 3 1).1 with
         | some (text, _) => if text = "" then [] else [(url, text)]
         | none => []) ∧
    (visitStep env maxDepth limit url depth st).2 =
      Option.map (fun r => r.2) (getPageContent env url 3 1).1 := by
  have hv : addSet st.visited url = st.visited ++ [url] := if_neg hc.1
  simp only [visitStep]
  split
  · cases hgp : (getPageContent env url 3 1).1 with
    | none =>
      refine ⟨hv, ?_, ?_, by simp⟩
      · simp [logFetch, appendLog]
      · simp [logFetch, appendLog, addVisited, addDiscovered]
    | some p =>
      obtain ⟨text, links⟩ := p
      by_cases ht : text = ""
      · simp only [if_pos ht]
        refine ⟨hv, ?_, ?_, by simp⟩
        · simp [logFetch, appendLog]
        · simp [logFetch, appendLog, addVisited, addDiscovered, ht]
      · simp only [if_neg ht]
        refine ⟨hv, ?_, ?_, by simp⟩
        · simp [appendContent, logFetch, appendLog]
        · simp [appendContent, logFetch, appendLog, addVisited, addDiscovered, ht]
  · rename_i hns
    exact absurd hc hns

/-- When `should_scrape_content` fails, `visitStep` appends no content. -/
theorem visitStep_no_scrape (env : Env) (maxDepth limit : Nat) (url : Url)
    (depth : Nat) (st : CrawlState)
    (hc : ¬(url ∉ st.visited ∧ depth ≤ maxDepth ∧ st.extractedContent.length < limit)) :
    (visitStep env maxDepth limit url depth st).1.extractedContent =
      st.extractedContent := by
  simp only [visitStep]
  split
  · rename_i hs
    exact absurd hs hc
  · split
    · cases hgp : (getPageContent env url 3 1).1 with
      | none => rfl
      | some p => obtain ⟨text, links⟩ := p; rfl
    · rfl

/-- Every link reached by the link loop is added to `discovered`, unless the
loop stopped early, in which case the final extracted-content count has
reached the quota. -/
theorem processLinks_discovers (env : Env) (base : Url) (maxDepth limit : Nat)
    (delay : ℚ) (depth : Nat) (rec : Url → CrawlState → CrawlState)
    (hrec : ∀ l s, Extends s (rec l s)) :
    ∀ links st l, l ∈ links →
      l ∈ (processLinks env base maxDepth limit delay depth rec links st).discovered ∨
      limit ≤ (processLinks env base maxDepth limit delay depth rec links st).extractedContent.length := by
  intro links
  induction links with
  | nil => intro st l h; exact absurd h (List.not_mem_nil l)
  | cons link rest ih =>
    intro st l hl
    simp only [processLinks]
    split
    · split
      · rename_i hq
        rcases List.mem_cons.1 hl with rfl | hl
        · exact Or.inl mem_addSet_self
        · exact Or.inr hq
      · rcases List.mem_cons.1 hl with rfl | hl
        · have h1 : l ∈ (addDiscovered st l).discovered := mem_addSet_self
          have h2 := (hrec l (appendLog (addDiscovered st l) [Event.sleep delay])).2.1
          have h3 := (extends_processLinks env base maxDepth limit delay depth rec
            hrec rest (rec l (appendLog (addDiscovered st l) [Event.sleep delay]))).2.1
          exact Or.inl (h3 _ (h2 _ h1))
        · exact ih _ l hl
    · rcases List.mem_cons.1 hl with rfl | hl
      · have h3 := (extends_processLinks env base maxDepth limit delay depth rec
          hrec rest (addDiscovered st l)).2.1
        exact Or.inl (h3 _ mem_addSet_self)
      · exact ih _ l hl

/-- Claim C1: for every crawl run and at every point during the run, the
crawl state satisfies: `visited ⊆ discovered`, the length of
`extractedContent` is at most `maxPages`, and no URL appears twice in
`extractedContent`.  The invariant `CrawlInv` (whose first three conjuncts
are exactly these properties) holds of the cleared initial state and is
preserved by every `visitStep`, every link-loop call and every recursive
call, so it holds at every point of every run; in particular it holds of the
final state of every run. -/
theorem claim_C1_invariant (env : Env) (base : Url) (maxDepth maxPages : Nat)
    (delay : ℚ) :
    CrawlInv maxPages initState ∧
    (∀ url depth st, CrawlInv maxPages st →
      CrawlInv maxPages (visitStep env maxDepth maxPages url depth st).1) ∧
    (∀ depth rec links st,
      (∀ l s, CrawlInv maxPages s → CrawlInv maxPages (rec l s)) →
      CrawlInv maxPages st →
      CrawlInv maxPages (processLinks env base maxDepth maxPages delay depth rec links st)) ∧
    (∀ fuel url depth st, CrawlInv maxPages st →
      CrawlInv maxPages (recursiveScrape env base maxDepth maxPages delay fuel url depth st)) ∧
    (∀ startUrl, CrawlInv maxPages (crawlRun env startUrl maxPages maxDepth delay)) :=
  ⟨inv_initState _,
   fun url depth st h => inv_visitStep env maxDepth maxPages url depth h,
   fun depth rec links st hrec h =>
     inv_processLinks env base maxDepth maxPages delay depth rec hrec links st h,
   fun fuel url depth st h =>
     inv_recursiveScrape env base maxDepth maxPages delay fuel url depth st h,
   fun startUrl =>
     inv_recursiveScrape env ((env.parse startUrl).netloc) maxDepth maxPages delay
       (maxDepth+1) startUrl 0 initState (inv_initState _)⟩

/-- Witness for C1 at a concrete run. -/
theorem claim_C1_invariant_witness :
    CrawlInv 1 (recursiveScrape (demoEnv fetchHome2) "a.test" 1 1 1 2
      "https://a.test/" 0 initState) :=
  (claim_C1_invariant (demoEnv fetchHome2) "a.test" 1 1 1).2.2.2.1 2
    "https://a.test/" 0 initState (by decide)

/-- Claim C2: on every Traversal Engine call, content is extracted iff the
URL is unvisited, the depth is at most `maxDepth` and the extracted count is
below `maxPages` (when the condition fails no content is appended); when
extracting, the URL is marked visited together with the logged fetch, a
`(url, text)` pair is appended exactly when the fetch succeeds with
non-empty text, and the returned links are handed to the link loop whenever
the fetch succeeds, whether or not the text was empty. -/
theorem claim_C2_extraction (env : Env) (maxDepth limit : Nat) (url : Url)
    (depth : Nat) (st : CrawlState) :
    ((url ∉ st.visited ∧ depth ≤ maxDepth ∧ st.extractedContent.length < limit) →
      (visitStep env maxDepth limit url depth st).1.visited = st.visited ++ [url] ∧
      Event.fetch url 3 1 requestTimeout ∈
        (visitStep env maxDepth limit url depth st).1.log ∧
      (visitStep env maxDepth limit url depth st).1.extractedContent =
        st.extractedContent ++
          (match (getPageContent env url 3 1).1 with
           | some (text, _) => if text = "" then [] else [(url, text)]
           | none => []) ∧
      (visitStep env maxDepth limit url depth st).2 =
        Option.map (fun r => r.2) (getPageContent env url 3 1).1) ∧
    (¬(url ∉ st.visited ∧ depth ≤ maxDepth ∧ st.extractedContent.length < limit) →
      (visitStep env maxDepth limit url depth st).1.extractedContent =
        st.extractedContent) :=
  ⟨visitStep_scrape env maxDepth limit url depth st,
   visitStep_no_scrape env maxDepth limit url depth st⟩

/-- Witness for C2 at a concrete call. -/
theorem claim_C2_extraction_witness :
    (visitStep (demoEnv fetchHome2) 1 1 "https://a.test/" 0 initState).1.visited =
      initState.visited ++ ["https://a.test/"] ∧
    Event.fetch "https://a.test/" 3 1 requestTimeout ∈
      (visitStep (demoEnv fetchHome2) 1 1 "https://a.test/" 0 initState).1.log ∧
    (visitStep (demoEnv fetchHome2) 1 1 "https://a.test/" 0 initState).1.extractedContent =
      initState.extractedContent ++
        (match (getPageContent (demoEnv fetchHome2) "https://a.test/" 3 1).1 with
         | some (text, _) => if text = "" then [] else [("https://a.test/", text)]
         | none => []) ∧
    (visitStep (demoEnv fetchHome2) 1 1 "https://a.test/" 0 initState).2 =
      Option.map (fun r => r.2)
        (getPageContent (demoEnv fetchHome2) "https://a.test/" 3 1).1 :=
  (claim_C2_extraction (demoEnv fetchHome2) 1 1 "https://a.test/" 0 initState).1
    (by decide)

/-- Claim C3 (amended): every link returned by a fetch that the link loop
reaches is added to `discovered`; a link can be missed only when the loop
terminated early on an earlier link because the extracted-content quota was
reached, in which case the final extracted count is at least the quota.
Moreover a link is recursed into only when it passes the internal/non-file
guard: in a whole run every fetched URL is the start URL or an internal
non-file URL, so external-host links and file links are never recursed
into. -/
theorem claim_C3_links (env : Env) (base : Url) (maxDepth limit : Nat)
    (delay : ℚ) :
    (∀ depth rec links st l,
      (∀ u s, Extends s (rec u s)) → l ∈ links →
      l ∈ (processLinks env base maxDepth limit delay depth rec links st).discovered ∨
      limit ≤ (processLinks env base maxDepth limit delay depth rec links st).extractedContent.length) ∧
    (∀ startUrl maxPages pol u mr rd tmo,
      Event.fetch u mr rd tmo ∈ (crawlRun env startUrl maxPages maxDepth pol).log →
      u = startUrl ∨ ((env.parse u).netloc = (env.parse startUrl).netloc ∧
        isFileUrl env.parse u = false)) := by
  constructor
  · intro depth rec links st l hrec hl
    exact processLinks_discovers env base maxDepth limit delay depth rec hrec
      links st l hl
  · intro startUrl maxPages pol u mr rd tmo hmem
    have h := @goodLog_recursiveScrape env ((env.parse startUrl).netloc) maxDepth
      maxPages pol
      (fun v => v = startUrl ∨ ((env.parse v).netloc = (env.parse startUrl).netloc ∧
        isFileUrl env.parse v = false))
      (fun l h1 h2 => Or.inr ⟨h1, h2⟩) (maxDepth+1) startUrl 0 initState
      (Or.inl rfl) (fun v mr' rd' tmo' hm => absurd hm (List.not_mem_nil _))
    exact (h u mr rd tmo hmem).1

/-- Witness for the amended C3 at a concrete link-loop call. -/
theorem claim_C3_links_witness :
    "https://ext.test/x" ∈ (processLinks (demoEnv fetchHome2) "a.test" 1 1 1 0
      (fun _ s => s) ["https://ext.test/x"] initState).discovered ∨
    1 ≤ (processLinks (demoEnv fetchHome2) "a.test" 1 1 1 0
      (fun _ s => s) ["https://ext.test/x"] initState).extractedContent.length :=
  (claim_C3_links (demoEnv fetchHome2) "a.test" 1 1 1).1 0 (fun _ s => s)
    ["https://ext.test/x"] initState "https://ext.test/x"
    (fun u s => Extends.refl s) (by decide)

/-- Counterexample to C3 as stated: the fetch of the start page returns the
external link `https://ext.test/x`, but because the quota (1 page) is
already exhausted when the loop reaches the earlier internal link, the loop
breaks and the external link is never added to `discovered`. -/
theorem claim_C3_cex :
    (getPageContent (demoEnv fetchHome2) "https://a.test/" 3 1).1 =
      some ("home", ["https://a.test/p1", "https://ext.test/x"]) ∧
    "https://ext.test/x" ∉
      (crawlRun (demoEnv fetchHome2) "https://a.test/" 1 1 1).discovered := by
  decide

/-- Claim C4 (amended): a link whose resolved absolute URL carries a
non-empty fragment is not normalized but discarded entirely; the links
returned are exactly the fragment-free http/https non-mailto resolutions,
rendered with the (already empty) fragment erased. -/
theorem claim_C4_fragment (env : Env) (pageUrl : Url) (hrefs : List String)
    (u : Url) :
    u ∈ extractLinks env pageUrl hrefs ↔
      ∃ href ∈ hrefs, keepHref env pageUrl href ∧
        u = normHref env pageUrl href :=
  mem_extractLinks env pageUrl hrefs u

/-- Counterexample to C4 as stated: the start page carries the single href
`https://x/page#sec` (parsed with fragment `sec`); the link-extraction loop
returns no links at all and `https://x/page` is never added to
`discovered`. -/
theorem claim_C4_cex :
    (demoEnv fetchFrag).parse "https://x/page#sec" =
      ⟨"https", "x", "/page", "sec"⟩ ∧
    extractLinks (demoEnv fetchFrag) "https://a.test/" ["https://x/page#sec"] = [] ∧
    "https://x/page" ∉
      (crawlRun (demoEnv fetchFrag) "https://a.test/" 5 2 1).discovered ∧
    (crawlRun (demoEnv fetchFrag) "https://a.test/" 5 2 1).discovered =
      ["https://a.test/"] := by
  decide

/-- Claim C5: for `maxRetries ≥ 1`, a fetch failing on the first
`maxRetries - 1` attempts and succeeding on the last returns the successful
result with exactly `maxRetries - 1` sleeps of the constant `retryDelay`;
a fetch all of whose attempts fail returns the failure outcome instead of
raising. -/
theorem claim_C5_retry (env : Env) (url : Url) (maxRetries : Nat) (delay : ℚ)
    (page : RawPage) :
    (1 ≤ maxRetries →
      (∀ i, i < maxRetries - 1 → env.fetch url i = none) →
      env.fetch url (maxRetries - 1) = some page →
      getPageContent env url maxRetries delay =
        (some (page.text, extractLinks env url page.hrefs),
          List.replicate (maxRetries - 1) delay)) ∧
    ((∀ i, env.fetch url i = none) →
      (getPageContent env url maxRetries delay).1 = none) :=
  ⟨fun h1 hfail hsucc =>
     getPageContent_eventually env url maxRetries delay page h1 hfail hsucc,
   fun h => getPageContent_fail env url maxRetries delay h⟩

/-- Witness for C5: three attempts with the first two failing, and a fetch
that never succeeds. -/
theorem claim_C5_retry_witness :
    getPageContent (demoEnv fetchThird) "https://a.test/" 3 1 =
      (some ("late", extractLinks (demoEnv fetchThird) "https://a.test/" []),
        List.replicate 2 1) ∧
    (getPageContent (demoEnv fetchNever) "https://a.test/" 3 1).1 = none :=
  ⟨(claim_C5_retry (demoEnv fetchThird) "https://a.test/" 3 1 ⟨"late", []⟩).1
     (by decide) (fun i hi => by interval_cases i <;> rfl) rfl,
   (claim_C5_retry (demoEnv fetchNever) "https://a.test/" 3 1 ⟨"", []⟩).2
     (fun i => rfl)⟩

/-- Claim C6: the orchestrator writes the discovered set lexicographically
sorted, one URL per line with no duplicate lines, so the file re-read equals
the sorted discovered set; when the write fails the failure is only logged
and the unchanged in-memory extracted content and sorted URL list are still
returned. -/
theorem claim_C6_output (env : Env) (startUrl : Url) (fname : String)
    (maxPages maxDepth : Nat) (pol : ℚ) :
    (scrapeWebsiteToFile env startUrl fname maxPages maxDepth pol true).fileLines =
      some (scrapeWebsiteToFile env startUrl fname maxPages maxDepth pol true).sortedUrls ∧
    (scrapeWebsiteToFile env startUrl fname maxPages maxDepth pol false).fileLines =
      none ∧
    (scrapeWebsiteToFile env startUrl fname maxPages maxDepth pol false).extractedContent =
      (scrapeWebsiteToFile env startUrl fname maxPages maxDepth pol true).extractedContent ∧
    (scrapeWebsiteToFile env startUrl fname maxPages maxDepth pol false).sortedUrls =
      (scrapeWebsiteToFile env startUrl fname maxPages maxDepth pol true).sortedUrls ∧
    List.Pairwise (fun a b => urlLe a b = true)
      (scrapeWebsiteToFile env startUrl fname maxPages maxDepth pol true).sortedUrls ∧
    (scrapeWebsiteToFile env startUrl fname maxPages maxDepth pol true).sortedUrls.Nodup ∧
    (∀ u, u ∈ (scrapeWebsiteToFile env startUrl fname maxPages maxDepth pol true).sortedUrls ↔
      u ∈ (crawlRun env startUrl maxPages maxDepth pol).discovered) := by
  refine ⟨rfl, rfl, rfl, rfl, ?_, ?_, ?_⟩
  · exact List.sorted_mergeSort
      (fun a b c hab hbc => by
        simp only [urlLe, decide_eq_true_eq] at hab hbc ⊢
        exact le_trans hab hbc)
      (fun a b => by
        simp only [urlLe, Bool.or_eq_true, decide_eq_true_eq]
        exact le_total a b)
      ((crawlRun env startUrl maxPages maxDepth pol).discovered)
  · have hdisc : (crawlRun env startUrl maxPages maxDepth pol).discovered.Nodup :=
      (inv_recursiveScrape env ((env.parse startUrl).netloc) maxDepth maxPages pol
        (maxDepth+1) startUrl 0 initState (inv_initState _)).2.2.2.2.1
    exact (List.mergeSort_perm
      ((crawlRun env startUrl maxPages maxDepth pol).discovered) urlLe).symm.nodup hdisc
  · intro u
    exact (List.mergeSort_perm
      ((crawlRun env startUrl maxPages maxDepth pol).discovered) urlLe).mem_iff

/-- Claim C7: the recursive traversal terminates — the run's result is
independent of any call-stack budget exceeding `maxDepth`, because each
descent requires `depth < maxDepth` and increases the depth — and `visited`
membership prevents descending into the same URL twice: the URLs fetched
during a run are pairwise distinct and all marked visited. -/
theorem claim_C7_termination (env : Env) (base : Url) (maxDepth limit : Nat)
    (delay : ℚ) :
    (∀ f g url st, maxDepth < f → maxDepth < g →
      recursiveScrape env base maxDepth limit delay f url 0 st =
      recursiveScrape env base maxDepth limit delay g url 0 st) ∧
    (∀ startUrl maxPages pol,
      (fetchUrls (crawlRun env startUrl maxPages maxDepth pol).log).Nodup ∧
      ∀ u ∈ fetchUrls (crawlRun env startUrl maxPages maxDepth pol).log,
        u ∈ (crawlRun env startUrl maxPages maxDepth pol).visited) := by
  constructor
  · intro f g url st hf hg
    exact recursiveScrape_stab env base maxDepth limit delay f g url 0 st
      (by omega) (by omega)
  · intro startUrl maxPages pol
    exact fetchOnce_recursiveScrape env ((env.parse startUrl).netloc) maxDepth
      maxPages pol (maxDepth+1) startUrl 0 initState
      ⟨List.nodup_nil, fun u hu => absurd hu (List.not_mem_nil u)⟩

/-- Witness for C7: two sufficient fuels give the same concrete run. -/
theorem claim_C7_termination_witness :
    recursiveScrape (demoEnv fetchHome2) "a.test" 1 1 1 2 "https://a.test/" 0
      initState =
    recursiveScrape (demoEnv fetchHome2) "a.test" 1 1 1 5 "https://a.test/" 0
      initState :=
  (claim_C7_termination (demoEnv fetchHome2) "a.test" 1 1 1).1 2 5
    "https://a.test/" initState (by decide) (by decide)

/-- Claim C8 (amended): every fetch of every run uses the built-in values
`max_retries=3`, `delay=1` and `timeout=10` — `_recursive_scrape` calls
`_get_page_content(current_url)` with its Python default arguments, and the
HTTP timeout is hard-coded; the crawl invocation supplies no fetch timeout,
retry count or retry delay. -/
theorem claim_C8_builtin (env : Env) (startUrl : Url) (maxPages maxDepth : Nat)
    (pol : ℚ) (u : Url) (mr : Nat) (rd : ℚ) (tmo : Nat) :
    Event.fetch u mr rd tmo ∈ (crawlRun env startUrl maxPages maxDepth pol).log →
    mr = 3 ∧ rd = 1 ∧ tmo = requestTimeout := by
  intro hmem
  have h := @goodLog_recursiveScrape env ((env.parse startUrl).netloc) maxDepth
    maxPages pol (fun _ => True) (fun _ _ _ => trivial) (maxDepth+1) startUrl 0
    initState trivial (fun v mr' rd' tmo' hm => absurd hm (List.not_mem_nil _))
  exact (h u mr rd tmo hmem).2

/-- Witness for the amended C8 at a concrete run. -/
theorem claim_C8_builtin_witness :
    (3:Nat) = 3 ∧ (1:ℚ) = 1 ∧ (10:Nat) = requestTimeout :=
  claim_C8_builtin (demoEnv fetchHome2) "https://a.test/" 7 4 2
    "https://a.test/" 3 1 10 (by decide)

/-- Counterexample to C8 as stated: the invocation supplies only the page
limit 7, the depth limit 4 and the politeness delay 2 — no fetch timeout,
retry count or retry delay — yet both fetches of the run use the built-in
values `max_retries=3`, `delay=1`, `timeout=10`, none of which equals any
invocation-supplied value. -/
theorem claim_C8_cex :
    (crawlRun (demoEnv fetchHome2) "https://a.test/" 7 4 2).log =
      [Event.fetch "https://a.test/" 3 1 10, Event.sleep 2,
       Event.fetch "https://a.test/p1" 3 1 10, Event.sleep 1, Event.sleep 1] ∧
    (3:Nat) ≠ 7 ∧ (3:Nat) ≠ 4 ∧ (1:ℚ) ≠ 2 ∧ (10:Nat) ≠ 7 ∧ (10:Nat) ≠ 4 := by
  decide

/-- Claim C9: the URL Classifier and the link filters apply only to links
extracted from pages, never to the start URL: a start URL with a matching
file extension or a fragment is still fetched, and its content is extracted
when the quota admits it. -/
theorem claim_C9_startUrl (env : Env) (startUrl : Url) (fname : String)
    (maxPages maxDepth : Nat) (pol : ℚ) (writeOk : Bool) (page : RawPage)
    (hfile : isFileUrl env.parse startUrl = true ∨ (env.parse startUrl).fragment ≠ "")
    (hq : 0 < maxPages) (hf : env.fetch startUrl 0 = some page)
    (ht : page.text ≠ "") :
    Event.fetch startUrl 3 1 requestTimeout ∈
      (scrapeWebsiteToFile env startUrl fname maxPages maxDepth pol writeOk).log ∧
    ∃ rest,
      (scrapeWebsiteToFile env startUrl fname maxPages maxDepth pol writeOk).extractedContent =
        (startUrl, page.text) :: rest := by
  have hc : startUrl ∉ initState.visited ∧ 0 ≤ maxDepth ∧
      initState.extractedContent.length < maxPages :=
    ⟨List.not_mem_nil _, Nat.zero_le _, hq⟩
  have hchar := visitStep_scrape env maxDepth maxPages startUrl 0 initState hc
  have hgp := getPageContent_first_success env startUrl 3 1 page (by omega) hf
  have hext : (visitStep env maxDepth maxPages startUrl 0 initState).1.extractedContent =
      [(startUrl, page.text)] := by
    rw [hchar.2.2.1, hgp]
    simp [ht, initState]
  have hstep := extends_recursiveScrape_step env ((env.parse startUrl).netloc)
    maxDepth maxPages pol maxDepth startUrl 0 initState
  constructor
  · obtain ⟨t, hlog⟩ := hstep.2.2.2
    show Event.fetch startUrl 3 1 requestTimeout ∈
      (crawlRun env startUrl maxPages maxDepth pol).log
    rw [show (crawlRun env startUrl maxPages maxDepth pol).log =
      (visitStep env maxDepth maxPages startUrl 0 initState).1.log ++ t from hlog]
    exact List.mem_append.2 (Or.inl hchar.2.1)
  · obtain ⟨t, hct⟩ := hstep.2.2.1
    refine ⟨t, ?_⟩
    show (crawlRun env startUrl maxPages maxDepth pol).extractedContent =
      (startUrl, page.text) :: t
    rw [show (crawlRun env startUrl maxPages maxDepth pol).extractedContent =
      (visitStep env maxDepth maxPages startUrl 0 initState).1.extractedContent ++ t
      from hct, hext]
    rfl

/-- Witness for C9: a PDF start URL is fetched and content-extracted. -/
theorem claim_C9_startUrl_witness :
    Event.fetch "https://a.test/doc.pdf" 3 1 requestTimeout ∈
      (scrapeWebsiteToFile (demoEnv fetchPdf) "https://a.test/doc.pdf" "out.txt"
        5 1 1 true).log ∧
    ∃ rest,
      (scrapeWebsiteToFile (demoEnv fetchPdf) "https://a.test/doc.pdf" "out.txt"
        5 1 1 true).extractedContent =
      ("https://a.test/doc.pdf", "pdf text") :: rest :=
  claim_C9_startUrl (demoEnv fetchPdf) "https://a.test/doc.pdf" "out.txt" 5 1 1
    true ⟨"pdf text", []⟩ (Or.inl (by decide)) (by decide) (by decide) (by decide)

/-- Claim C10: in this run the fetch of the start page returns three links;
the loop reaches the internal non-file unvisited link `p1` at depth 0 below
`maxDepth = 1` while the quota (1 page) is already reached, terminates
early, and neither the external link nor the file link — which would
otherwise merely be recorded — is added to `discovered`. -/
theorem claim_C10_break :
    (getPageContent (demoEnv fetchHome3) "https://a.test/" 3 1).1 =
      some ("home",
        ["https://a.test/p1", "https://ext.test/x", "https://a.test/f.pdf"]) ∧
    (demoParse "https://a.test/p1").netloc = "a.test" ∧
    isFileUrl demoParse "https://a.test/p1" = false ∧
    (crawlRun (demoEnv fetchHome3) "https://a.test/" 1 1 1).extractedContent.length = 1 ∧
    "https://a.test/p1" ∈
      (crawlRun (demoEnv fetchHome3) "https://a.test/" 1 1 1).discovered ∧
    "https://ext.test/x" ∉
      (crawlRun (demoEnv fetchHome3) "https://a.test/" 1 1 1).discovered ∧
    "https://a.test/f.pdf" ∉
      (crawlRun (demoEnv fetchHome3) "https://a.test/" 1 1 1).discovered := by
  decide

/-- Witness for the amended C4 at a concrete page. -/
theorem claim_C4_fragment_witness :
    "https://a.test/p1" ∈ extractLinks (demoEnv fetchHome2) "https://a.test/"
      ["https://a.test/p1"] ↔
    ∃ href ∈ ["https://a.test/p1"],
      keepHref (demoEnv fetchHome2) "https://a.test/" href ∧
      "https://a.test/p1" = normHref (demoEnv fetchHome2) "https://a.test/" href :=
  claim_C4_fragment (demoEnv fetchHome2) "https://a.test/" ["https://a.test/p1"]
    "https://a.test/p1"

/-- Witness for C6 at a concrete run. -/
theorem claim_C6_output_witness :
    (scrapeWebsiteToFile (demoEnv fetchHome2) "https://a.test/" "out.txt" 1 1 1
      true).fileLines =
    some (scrapeWebsiteToFile (demoEnv fetchHome2) "https://a.test/" "out.txt" 1 1 1
      true).sortedUrls :=
  (claim_C6_output (demoEnv fetchHome2) "https://a.test/" "out.txt" 1 1 1).1
